import Mathlib

/-!
Verification of the airbnbook ICS merge/translate service.

Python strings are modelled as lists of Unicode code points (`PyStr`),
byte strings as lists of byte values.  The definitions in the namespaces
`convert_fr_service`, `fusion_service`, `utils` and `sync_service` are
shallow embeddings of the functions of the corresponding Python modules.
-/

/-- A Python `str`: a sequence of Unicode code points. -/
abbrev PyStr := List Nat

/-- Converts a Lean string literal to the code-point list model. -/
def pystr (s : String) : PyStr := s.data.map (fun c => c.toNat)

/-- Code points treated as whitespace by Python's `str.strip` / `str.isspace`
and by the regex class `\s` (Unicode mode). -/
def isPySpace (c : Nat) : Bool :=
  c = 9 ∨ c = 10 ∨ c = 11 ∨ c = 12 ∨ c = 13 ∨ c = 28 ∨ c = 29 ∨ c = 30 ∨
  c = 31 ∨ c = 32 ∨ c = 133 ∨ c = 160 ∨ c = 5760 ∨
  (8192 ≤ c ∧ c ≤ 8202) ∨ c = 8232 ∨ c = 8233 ∨ c = 8239 ∨ c = 8287 ∨ c = 12288

/-- Code points at which Python's `str.splitlines` breaks a line
(`\n`, `\v`, `\f`, `\r`, FS, GS, RS, NEL, LS, PS; `\r\n` is one break). -/
def isLineBreak (c : Nat) : Bool :=
  c = 10 ∨ c = 11 ∨ c = 12 ∨ c = 13 ∨ c = 28 ∨ c = 29 ∨ c = 30 ∨
  c = 133 ∨ c = 8232 ∨ c = 8233

/-- Models Python `str.strip()`: removes leading and trailing whitespace. -/
def pyStrip (s : PyStr) : PyStr :=
  ((s.dropWhile isPySpace).reverse.dropWhile isPySpace).reverse

/-- Models Python `str.rstrip("\r")`: removes all trailing carriage returns. -/
def rstripCR (s : PyStr) : PyStr :=
  (s.reverse.dropWhile (fun c => c = 13)).reverse

/-- Models Python `str.upper` on one code point, on the ASCII and Latin-1
ranges (code points of other scripts are left unchanged by this model;
no input of this development contains them). -/
def upperChar (c : Nat) : List Nat :=
  if 97 ≤ c ∧ c ≤ 122 then [c - 32]
  else if c = 181 then [924]
  else if c = 223 then [83, 83]
  else if 224 ≤ c ∧ c ≤ 254 ∧ c ≠ 247 then [c - 32]
  else if c = 255 then [376]
  else [c]

/-- Models Python `str.upper` (ASCII / Latin-1 range). -/
def pyUpper (s : PyStr) : PyStr := s.flatMap upperChar

/-- Models Python `str.lower` on one code point (ASCII / Latin-1 range). -/
def lowerChar (c : Nat) : Nat :=
  if 65 ≤ c ∧ c ≤ 90 then c + 32
  else if 192 ≤ c ∧ c ≤ 222 ∧ c ≠ 215 then c + 32
  else if c = 376 then 255
  else c

/-- Models Python `str.lower` (ASCII / Latin-1 range). -/
def pyLower (s : PyStr) : PyStr := s.map lowerChar

/-- Worker for `splitlines`: accumulates the current line (reversed). -/
def slGo (acc : List Nat) : List Nat → List PyStr
  | [] => [acc.reverse]
  | 13 :: 10 :: rest =>
      acc.reverse :: (if rest = [] then [] else slGo [] rest)
  | c :: rest =>
      if isLineBreak c then
        acc.reverse :: (if rest = [] then [] else slGo [] rest)
      else slGo (c :: acc) rest

/-- Models Python `str.splitlines()`. -/
def splitlines (s : PyStr) : List PyStr :=
  if s = [] then [] else slGo [] s

/-- Joins lines with `"\n"`, modelling Python `"\n".join(lines)`. -/
def joinNl (lines : List PyStr) : PyStr := List.intercalate [10] lines

/-- Splits a string at `\n` only (the boundaries at which the regex anchors
`^` and `$` match in Python `re.MULTILINE` mode).  Unlike `splitlines`,
an empty string yields one empty line and other control characters are kept. -/
def splitNl : List Nat → List PyStr
  | [] => [[]]
  | 10 :: rest => [] :: splitNl rest
  | c :: rest =>
      match splitNl rest with
      | [] => [[c]]
      | l :: ls => (c :: l) :: ls

/-- Splits at the first occurrence of code point `sep`, returning the parts
before and after it, or `none` when `sep` does not occur. -/
def splitFirst (sep : Nat) : PyStr → Option (PyStr × PyStr)
  | [] => none
  | c :: rest =>
      if c = sep then some ([], rest)
      else match splitFirst sep rest with
        | none => none
        | some (pre, post) => some (c :: pre, post)

/-! ### UTF-8 encoding and decoding

`fold` in `convert_fr_service.py` works on `line.encode("utf-8")` and decodes
byte slices with `errors="ignore"`, which silently drops the bytes of any
ill-formed sequence (one maximal subpart per error). -/

/-- UTF-8 encoding of one code point. -/
def encodeChar (c : Nat) : List Nat :=
  if c < 128 then [c]
  else if c < 2048 then [192 + c / 64, 128 + c % 64]
  else if c < 65536 then [224 + c / 4096, 128 + (c / 64) % 64, 128 + c % 64]
  else [240 + c / 262144, 128 + (c / 4096) % 64, 128 + (c / 64) % 64, 128 + c % 64]

/-- UTF-8 encoding of a string, modelling Python `str.encode("utf-8")`. -/
def utf8Bytes (s : PyStr) : List Nat := s.flatMap encodeChar

/-- UTF-8 byte length of a string. -/
def utf8Len (s : PyStr) : Nat := (utf8Bytes s).length

/-- Is this byte a UTF-8 continuation byte? -/
def isCont (c : Nat) : Bool := 128 ≤ c ∧ c ≤ 191

/-- Valid second byte of a three-byte sequence with lead byte `b`. -/
def cont3ok (b c : Nat) : Bool :=
  if b = 224 then 160 ≤ c ∧ c ≤ 191
  else if b = 237 then 128 ≤ c ∧ c ≤ 159
  else isCont c

/-- Valid second byte of a four-byte sequence with lead byte `b`. -/
def cont4ok (b c : Nat) : Bool :=
  if b = 240 then 144 ≤ c ∧ c ≤ 191
  else if b = 244 then 128 ≤ c ∧ c ≤ 143
  else isCont c

/-- One step of the UTF-8 decoder with `errors="ignore"`: returns the decoded
code point (or `none` for an ill-formed maximal subpart) and the number of
bytes consumed (always at least 1 on nonempty input). -/
def utf8Step : List Nat → Option Nat × Nat
  | [] => (none, 1)
  | b :: rest =>
      if b < 128 then (some b, 1)
      else if 194 ≤ b ∧ b ≤ 223 then
        match rest with
        | c1 :: _ =>
            if isCont c1 then (some ((b - 192) * 64 + (c1 - 128)), 2) else (none, 1)
        | [] => (none, 1)
      else if 224 ≤ b ∧ b ≤ 239 then
        match rest with
        | c1 :: rest2 =>
            if cont3ok b c1 then
              match rest2 with
              | c2 :: _ =>
                  if isCont c2 then
                    (some ((b - 224) * 4096 + (c1 - 128) * 64 + (c2 - 128)), 3)
                  else (none, 2)
              | [] => (none, 2)
            else (none, 1)
        | [] => (none, 1)
      else if 240 ≤ b ∧ b ≤ 244 then
        match rest with
        | c1 :: rest2 =>
            if cont4ok b c1 then
              match rest2 with
              | c2 :: rest3 =>
                  if isCont c2 then
                    match rest3 with
                    | c3 :: _ =>
                        if isCont c3 then
                          (some ((b - 240) * 262144 + (c1 - 128) * 4096 +
                                 (c2 - 128) * 64 + (c3 - 128)), 4)
                        else (none, 3)
                    | [] => (none, 3)
                  else (none, 2)
              | [] => (none, 2)
            else (none, 1)
        | [] => (none, 1)
      else (none, 1)

/-- Fuel-driven UTF-8 decoding loop with `errors="ignore"`. -/
def decodeIgnoreAux : Nat → List Nat → PyStr
  | 0, _ => []
  | _, [] => []
  | fuel + 1, bs =>
      let r := utf8Step bs
      (match r.1 with
       | some c => [c]
       | none => []) ++ decodeIgnoreAux fuel (bs.drop r.2)

/-- Models Python `bytes.decode("utf-8", errors="ignore")`. -/
def decodeIgnore (bs : List Nat) : PyStr := decodeIgnoreAux bs.length bs

namespace convert_fr_service

/-- Updates the last element of a list by appending `s` to it
(models Python `out[-1] += s`; unused on the empty list). -/
def modLast : List PyStr → PyStr → List PyStr
  | [], _ => []
  | [x], s => [x ++ s]
  | x :: y :: ys, s => x :: modLast (y :: ys) s

/-- Loop of `unfold` from `src/convert_fr_service.py`: a physical line starting
with a space is appended (without its first character) to the last logical
line; when there is no previous line it is dropped. -/
def unfoldGo (out : List PyStr) : List PyStr → List PyStr
  | [] => out
  | l :: ls =>
      if l.head? = some 32 then
        if out = [] then unfoldGo out ls
        else unfoldGo (modLast out (l.drop 1)) ls
      else unfoldGo (out ++ [l]) ls

/-- Models `unfold` from `src/convert_fr_service.py`. -/
def unfold (ics : PyStr) : PyStr := joinNl (unfoldGo [] (splitlines ics))

/-- Byte chunks of size `limit` (the successive `raw[start:start+limit]`
slices of `fold`'s while loop); driven by fuel, which `raw.length` covers
whenever `limit ≥ 1`. -/
def chunksGo : Nat → List Nat → Nat → List (List Nat)
  | 0, _, _ => []
  | _, [], _ => []
  | fuel + 1, raw, limit => raw.take limit :: chunksGo fuel (raw.drop limit) limit

/-- Folds one logical line, modelling the body of `fold`'s for loop from
`src/convert_fr_service.py`: a line of more than `limit` UTF-8 bytes is cut
into `limit`-byte slices, each decoded with `errors="ignore"`, and every
slice after the first is prefixed with one space. -/
def foldLine (line : PyStr) (limit : Nat) : List PyStr :=
  let raw := utf8Bytes line
  if raw.length ≤ limit then [line]
  else
    match chunksGo raw.length raw limit with
    | [] => []
    | c :: cs => decodeIgnore c :: cs.map (fun ck => 32 :: decodeIgnore ck)

/-- The physical output lines of `fold` from `src/convert_fr_service.py`. -/
def foldLines (ics : PyStr) (limit : Nat) : List PyStr :=
  (splitlines ics).flatMap (fun line => foldLine line limit)

/-- Models `fold` from `src/convert_fr_service.py` (default `limit = 75`). -/
def fold (ics : PyStr) (limit : Nat) : PyStr := joinNl (foldLines ics limit)

/-- Worker collapsing each maximal whitespace run to one space
(models `re.sub(r"\s+", " ", s)`). -/
def collapseGo (prevSpace : Bool) : PyStr → PyStr
  | [] => []
  | c :: rest =>
      if isPySpace c then
        if prevSpace then collapseGo true rest else 32 :: collapseGo true rest
      else c :: collapseGo false rest

/-- Models `normalize` from `src/convert_fr_service.py`:
`re.sub(r"\s+", " ", s).strip().lower()`. -/
def normalize (s : PyStr) : PyStr := pyLower (pyStrip (collapseGo false s))

/-- Models `translate_summary` from `src/convert_fr_service.py`: a fixed
built-in mapping on the normalized value; unknown values pass through. -/
def translate_summary (value : PyStr) : PyStr :=
  let v := normalize value
  if v = pystr "airbnb (not available)" then pystr "Airbnb (Date bloquée)"
  else if v = pystr "reserved" then pystr "Airbnb (Réservation)"
  else if v = pystr "closed - not available" then pystr "Booking (Réservation)"
  else value

/-- Does `line.upper()` start with `SUMMARY:` or `SUMMARY;`? -/
def isSummaryLine (line : PyStr) : Bool :=
  (pystr "SUMMARY:").isPrefixOf (pyUpper line) ∨
  (pystr "SUMMARY;").isPrefixOf (pyUpper line)

/-- Per-line body of `translate_ics_summary_only` from
`src/convert_fr_service.py`: on a SUMMARY line containing a colon, the part
before the first colon is kept and the value is passed through
`translate_summary`; every other line is unchanged. -/
def transLine (line : PyStr) : PyStr :=
  if isSummaryLine line then
    match splitFirst 58 line with
    | some (k, v) => k ++ 58 :: translate_summary v
    | none => line
  else line

/-- Models `translate_ics_summary_only` from `src/convert_fr_service.py`. -/
def translate_ics_summary_only (ics_unfolded : PyStr) : PyStr :=
  joinNl ((splitlines ics_unfolded).map transLine)

end convert_fr_service

namespace fusion_service

/-- The normalization `line.strip().upper()` applied by `parse_events` of
`src/fusion_service.py` to each physical line before comparing it with the
VEVENT delimiters. -/
def normLine (line : PyStr) : PyStr := pyUpper (pyStrip line)

/-- Loop of `parse_events` from `src/fusion_service.py`, at the level of line
lists.  State: emitted events `evts`, current buffer `cur`, flag `inside`.
Note that the `END:VEVENT` branch does not test `inside` and does not reset
`cur`, exactly as in the source. -/
def peGo (evts : List (List PyStr)) (cur : List PyStr) (inside : Bool) :
    List PyStr → List (List PyStr)
  | [] => evts
  | raw :: rest =>
      let line := rstripCR raw
      if normLine line = pystr "BEGIN:VEVENT" then
        peGo evts [pystr "BEGIN:VEVENT"] true rest
      else if normLine line = pystr "END:VEVENT" then
        peGo (evts ++ [cur ++ [pystr "END:VEVENT"]]) (cur ++ [pystr "END:VEVENT"]) false rest
      else if inside then
        peGo evts (cur ++ [line]) inside rest
      else
        peGo evts cur inside rest

/-- Events of `parse_events` from `src/fusion_service.py`, as line lists. -/
def parse_events_lines (ics_text : PyStr) : List (List PyStr) :=
  peGo [] [] false (splitlines ics_text)

/-- Models `parse_events` from `src/fusion_service.py` (each event is the
`"\n"`-join of its lines). -/
def parse_events (ics_text : PyStr) : List PyStr :=
  (parse_events_lines ics_text).map joinNl

/-- First match of the `re.MULTILINE` regex `^UID:(.+)$` over the lines of an
event: the first line starting with `UID:` followed by at least one
character; the captured group is that remainder. -/
def uidSearch (lines : List PyStr) : Option PyStr :=
  lines.findSome? fun l =>
    if (pystr "UID:").isPrefixOf l ∧ l.drop 4 ≠ [] then some (l.drop 4) else none

/-- First match of `^SUMMARY:(.+)$` over the lines of an event. -/
def smSearch (lines : List PyStr) : Option PyStr :=
  lines.findSome? fun l =>
    if (pystr "SUMMARY:").isPrefixOf l ∧ l.drop 8 ≠ [] then some (l.drop 8) else none

/-- Finds the first colon in the given line or, failing that, in the
following lines, returning the remainder of that line after the colon.
This mirrors how `[^:]*:` in `^DTSTART[^:]*:(.+)$` may cross `\n`
(the character class `[^:]` matches a newline). -/
def colonScan : List PyStr → Option PyStr
  | [] => none
  | l :: ls =>
      match splitFirst 58 l with
      | some (_, post) => some post
      | none => colonScan ls

/-- First match of `^DTSTART[^:]*:(.+)$` (`re.MULTILINE`) over the lines of
an event: at each line starting with `DTSTART`, the regex runs to the first
colon at or after that point (possibly on a later physical line) and
captures the nonempty remainder of that line; on failure the search resumes
at the next candidate line. -/
def dtSearch : List PyStr → Option PyStr
  | [] => none
  | l :: ls =>
      if (pystr "DTSTART").isPrefixOf l then
        match colonScan (l.drop 7 :: ls) with
        | some v => if v ≠ [] then some v else dtSearch ls
        | none => dtSearch ls
      else dtSearch ls

/-- Models `key_for` from `src/fusion_service.py`: `UID::<value.strip()>`
when `^UID:(.+)$` matches, else the composite
`DS::<dtstart>::SM::<summary>` key with stripped (possibly empty) parts. -/
def key_for (evt : PyStr) : PyStr :=
  let lines := splitNl evt
  match uidSearch lines with
  | some v => pystr "UID::" ++ pyStrip v
  | none =>
      pystr "DS::" ++ (match dtSearch lines with
        | some v => pyStrip v
        | none => []) ++
      pystr "::SM::" ++ (match smSearch lines with
        | some v => pyStrip v
        | none => [])

/-- One entry of the `seen` dictionary: dedup key, origin, event text. -/
abbrev SeenEntry := PyStr × PyStr × PyStr

/-- Looks up the recorded winner for a key in the `seen` dictionary. -/
def lookupSeen (seen : List SeenEntry) (k : PyStr) : Option (PyStr × PyStr) :=
  (seen.find? (fun e => e.1 = k)).map (fun e => e.2)

/-- Body of the merge loop of `merge_ics` from `src/fusion_service.py`:
unseen keys are appended; a seen key is replaced in place when the recorded
winner is not from origin `A` and the new event is (Python dicts keep the
original insertion position on assignment to an existing key). -/
def mergeStep (seen : List SeenEntry) (origin : PyStr) (evt : PyStr) :
    List SeenEntry :=
  let k := key_for evt
  match lookupSeen seen k with
  | none => seen ++ [(k, origin, evt)]
  | some (o, _) =>
      if o ≠ pystr "A" ∧ origin = pystr "A" then
        seen.map (fun e => if e.1 = k then (k, origin, evt) else e)
      else seen

/-- Models `merge_ics` from `src/fusion_service.py`: events of source A
(origin `"A"`) then source B (origin `"B"`) are deduplicated through
`mergeStep`, and the winners are wrapped in the fixed calendar header and
footer, with a trailing newline. -/
def merge_ics (airbnb_ics booking_ics : PyStr) : PyStr :=
  let header := [pystr "BEGIN:VCALENDAR", pystr "VERSION:2.0",
    pystr "PRODID:-//AirBnBook Fusion//ICS//FR", pystr "CALSCALE:GREGORIAN"]
  let evs := (parse_events airbnb_ics).map (fun e => (pystr "A", e)) ++
    (parse_events booking_ics).map (fun e => (pystr "B", e))
  let seen := evs.foldl (fun s oe => mergeStep s oe.1 oe.2) []
  joinNl (header ++ seen.map (fun e => e.2.2) ++ [pystr "END:VCALENDAR"]) ++ [10]

end fusion_service

namespace utils

/-- Models `unfold` from `src/src/utils.py`:
`re.sub(r'\x5cr?\x5cn[ \x5ct]', '', ics_content)` — every `\r?\n` that is
directly followed by a space or tab is removed together with that one
whitespace character, scanning left to right. -/
def unfold : PyStr → PyStr
  | [] => []
  | 13 :: 10 :: c :: rest =>
      if c = 32 ∨ c = 9 then unfold rest else 13 :: unfold (10 :: c :: rest)
  | 10 :: c :: rest =>
      if c = 32 ∨ c = 9 then unfold rest else 10 :: unfold (c :: rest)
  | c :: rest => c :: unfold rest

end utils

namespace sync_service

/-- Is this code point an ASCII letter? -/
def isAsciiAlpha (c : Nat) : Bool := (65 ≤ c ∧ c ≤ 90) ∨ (97 ≤ c ∧ c ≤ 122)

/-- Characters allowed in a URL scheme after the initial letter
(letters, digits, `+`, `-`, `.`). -/
def isSchemeChar (c : Nat) : Bool :=
  isAsciiAlpha c ∨ (48 ≤ c ∧ c ≤ 57) ∨ c = 43 ∨ c = 45 ∨ c = 46

/-- Scheme extraction of `urllib.parse.urlsplit`: when the text before the
first `:` is a letter followed by scheme characters, it is the (lowercased)
scheme and parsing continues after the colon; otherwise the scheme is empty
and the whole input remains. -/
def schemeSplit (url : PyStr) : PyStr × PyStr :=
  match splitFirst 58 url with
  | none => ([], url)
  | some (pre, post) =>
      match pre with
      | [] => ([], url)
      | c :: cs =>
          if isAsciiAlpha c ∧ cs.all isSchemeChar then (pyLower (c :: cs), post)
          else ([], url)

/-- Netloc extraction of `urlsplit`: when the remainder starts with `//`,
the netloc runs up to the first `/`, `?` or `#`. -/
def netlocOf (rest : PyStr) : PyStr :=
  if rest.take 2 = [47, 47] then
    (rest.drop 2).takeWhile (fun c => ¬ (c = 47 ∨ c = 63 ∨ c = 35))
  else []

/-- Hostname of a netloc, following `urllib.parse`'s `_hostinfo`: the part
after the last `@`; inside the brackets for a bracketed IPv6 literal,
otherwise up to the first `:`; lowercased; `none` when empty. -/
def hostnameOf (netloc : PyStr) : Option PyStr :=
  let hostinfo := (netloc.reverse.takeWhile (fun c => c ≠ 64)).reverse
  let h :=
    if 91 ∈ hostinfo then
      ((hostinfo.dropWhile (fun c => c ≠ 91)).drop 1).takeWhile (fun c => c ≠ 93)
    else hostinfo.takeWhile (fun c => c ≠ 58)
  if h = [] then none else some (pyLower h)

/-- Models `validate_url` from `src/src/sync_service.py`: the scheme must be
`http` or `https`, the netloc nonempty, and the hostname must not be one of
the four literal blocked hosts. -/
def validate_url (url : PyStr) : Bool :=
  let (scheme, rest) := schemeSplit url
  if ¬ (scheme = pystr "http" ∨ scheme = pystr "https") then false
  else
    let netloc := netlocOf rest
    if netloc = [] then false
    else
      match hostnameOf netloc with
      | none => true
      | some h =>
          ¬ (h = pystr "localhost" ∨ h = pystr "127.0.0.1" ∨
             h = pystr "0.0.0.0" ∨ h = pystr "::1")

/-- Models `fetch_ical` from `src/src/sync_service.py` with the HTTP session
abstracted as `net` (`none` stands for any request exception).  The second
component records whether a network request was attempted: an URL rejected
by `validate_url` yields `none` without any request. -/
def fetch_ical (net : PyStr → Option PyStr) (url : PyStr) :
    Option PyStr × Bool :=
  if validate_url url then
    match net url with
    | some content =>
        (if 10485760 < utf8Len content then none else some content, true)
    | none => (none, true)
  else (none, false)

end sync_service

/-! ### Definitions written from the specification's words -/

/-- Written from the spec of `Unfold`: builds the current logical line `cur`
by appending each continuation line with its one leading marker removed;
a non-continuation line starts a new logical line. -/
def specUnfoldGo (cur : PyStr) : List PyStr → List PyStr
  | [] => [cur]
  | l :: ls =>
      if l.head? = some 32 then specUnfoldGo (cur ++ l.drop 1) ls
      else cur :: specUnfoldGo l ls

/-- Written from the spec of `Unfold` (with the space-only continuation
marker of `convert_fr_service.py`): leading continuation lines, having no
prior logical line, are dropped; every other physical line starts a logical
line onto which its continuation lines are joined. -/
def specUnfold : List PyStr → List PyStr
  | [] => []
  | l :: ls =>
      if l.head? = some 32 then specUnfold ls
      else specUnfoldGo l ls

/-- Written from the spec of `KeyFor`: the first line with the given prefix
and a nonempty remainder after it, returning that remainder. -/
def firstLineValue (pre : PyStr) (lines : List PyStr) : Option PyStr :=
  lines.findSome? fun l =>
    if pre.isPrefixOf l ∧ l.drop pre.length ≠ [] then some (l.drop pre.length)
    else none

/-- Written from the spec of `KeyFor`: the first `DTSTART` property line
(parameters allowed before the colon) carrying a nonempty value after its
first colon, returning that value. -/
def specDtValue (lines : List PyStr) : Option PyStr :=
  lines.findSome? fun l =>
    if (pystr "DTSTART").isPrefixOf l then
      match splitFirst 58 l with
      | some (_, post) => if post ≠ [] then some post else none
      | none => none
    else none

/-- Written from the spec of `KeyFor` (as amended: property names are
matched case-sensitively): `UID::<value>` with the trimmed value of the
first `UID:` line when one with a nonempty value exists, else the composite
`DS::<dtstart>::SM::<summary>` key with trimmed values and the empty string
for a missing component. -/
def specKeyFor (evt : PyStr) : PyStr :=
  let lines := splitNl evt
  match firstLineValue (pystr "UID:") lines with
  | some v => pystr "UID::" ++ pyStrip v
  | none =>
      pystr "DS::" ++ (match specDtValue lines with
        | some v => pyStrip v
        | none => []) ++
      pystr "::SM::" ++ (match firstLineValue (pystr "SUMMARY:") lines with
        | some v => pyStrip v
        | none => [])

/-- Written from the claims about the event extractor: scans the lines with
the normalization of `parse_events` and checks that every `END:VEVENT` line
occurs while a VEVENT block is open. -/
def okBracketed : Bool → List PyStr → Bool
  | _, [] => true
  | opened, raw :: rest =>
      if fusion_service.normLine (rstripCR raw) = pystr "BEGIN:VEVENT" then
        okBracketed true rest
      else if fusion_service.normLine (rstripCR raw) = pystr "END:VEVENT" then
        opened && okBracketed false rest
      else okBracketed opened rest

/-- Written from the spec of `Fold`: concatenates folded physical segments
after removing the single leading continuation space of each segment
after the first. -/
def refoldJoin : List PyStr → PyStr
  | [] => []
  | s :: rest => s ++ rest.flatMap (fun l => l.drop 1)

/-- Written from the claim about URL validation: a dotted-quad IPv4 host in
the loopback range `127.0.0.0/8` (four dot-separated decimal octets, the
first being 127). -/
def isLoopbackIPv4 (h : PyStr) : Bool :=
  let parts := h.splitOn 46
  parts.length = 4 ∧
  parts.all (fun p => p ≠ [] ∧ p.all (fun c => 48 ≤ c ∧ c ≤ 57) ∧
    (p.foldl (fun n c => n * 10 + (c - 48)) 0) ≤ 255) ∧
  (parts.headD []).foldl (fun n c => n * 10 + (c - 48)) 0 = 127

/-- The hostname that `validate_url` checks for a given URL. -/
def hostOfUrl (url : PyStr) : Option PyStr :=
  sync_service.hostnameOf (sync_service.netlocOf (sync_service.schemeSplit url).2)

/-- Written from the claims about the event extractor: an interior line of an
emitted event comes from an input line (original case, trailing carriage
returns stripped) and is not a VEVENT delimiter. -/
abbrev interiorOK (all : List PyStr) (l : PyStr) : Prop :=
  l ∈ all.map rstripCR ∧
  fusion_service.normLine l ≠ pystr "BEGIN:VEVENT" ∧
  fusion_service.normLine l ≠ pystr "END:VEVENT"

/-- Written from the claims about the event extractor: an emitted event
begins with the exact line `BEGIN:VEVENT`, ends with the exact line
`END:VEVENT`, and all its interior lines satisfy `interiorOK`. -/
abbrev eventOK (all : List PyStr) (e : List PyStr) : Prop :=
  e.head? = some (pystr "BEGIN:VEVENT") ∧
  e.getLast? = some (pystr "END:VEVENT") ∧
  ∀ l ∈ (e.drop 1).dropLast, interiorOK all l

/-! ### Sanity checks of the embedding on concrete inputs -/

example : decodeIgnore (utf8Bytes (pystr "héllo")) = pystr "héllo" := by decide
example : decodeIgnore [97, 195] = [97] := by decide
example : decodeIgnore [169, 98] = [98] := by decide
example : splitlines (pystr "a\r\nb\nc") = [pystr "a", pystr "b", pystr "c"] := by decide
example : splitlines (pystr "a\n") = [pystr "a"] := by decide
example : pyStrip (pystr "  END:VEVENT  ") = pystr "END:VEVENT" := by decide
example : pyUpper (pystr "begin:Vevent") = pystr "BEGIN:VEVENT" := by decide
example : convert_fr_service.unfold (pystr "A:x\n bc\nB:y") = pystr "A:xbc\nB:y" := by decide
example : convert_fr_service.foldLine (pystr "abcd") 2 = [pystr "ab", pystr " cd"] := by decide
example :
    convert_fr_service.transLine (pystr "SUMMARY:Reserved") =
      pystr "SUMMARY:Airbnb (Réservation)" := by decide
example :
    convert_fr_service.transLine (pystr "SUMMARY;LANGUAGE=en:reserved") =
      pystr "SUMMARY;LANGUAGE=en:Airbnb (Réservation)" := by decide
example :
    fusion_service.parse_events (pystr "x\nBEGIN:VEVENT\nUID:1\nEND:VEVENT\ny") =
      [pystr "BEGIN:VEVENT\nUID:1\nEND:VEVENT"] := by decide
example :
    fusion_service.key_for (pystr "BEGIN:VEVENT\nUID: 42 \nEND:VEVENT") =
      pystr "UID::42" := by decide
example :
    fusion_service.key_for (pystr "BEGIN:VEVENT\nDTSTART;TZID=X:20240101\nSUMMARY:a\nEND:VEVENT") =
      pystr "DS::20240101::SM::a" := by decide
example :
    fusion_service.merge_ics (pystr "BEGIN:VEVENT\nUID:1\nSUMMARY:R\nEND:VEVENT\n") [] =
      pystr "BEGIN:VCALENDAR\nVERSION:2.0\nPRODID:-//AirBnBook Fusion//ICS//FR\nCALSCALE:GREGORIAN\nBEGIN:VEVENT\nUID:1\nSUMMARY:R\nEND:VEVENT\nEND:VCALENDAR\n" := by decide
example : utils.unfold (pystr "A:x\r\n b\n\tc\nD:y") = pystr "A:xbc\nD:y" := by decide
example : utils.unfold (pystr " X\nA") = pystr " X\nA" := by decide
example : sync_service.validate_url (pystr "http://example.com/cal.ics") = true := by decide
example : sync_service.validate_url (pystr "ftp://example.com/") = false := by decide
example : sync_service.validate_url (pystr "http://127.0.0.1/x") = false := by decide
example : sync_service.validate_url (pystr "https://[::1]/x") = false := by decide
example : sync_service.validate_url (pystr "http://user@LocalHost:8080/x") = false := by decide
example : sync_service.validate_url (pystr "http://127.0.0.2/x") = true := by decide
example : specUnfold [pystr "A:x", pystr " bc", pystr "B:y"] = [pystr "A:xbc", pystr "B:y"] := by decide
example : isLoopbackIPv4 (pystr "127.0.0.2") = true := by decide
example : isLoopbackIPv4 (pystr "128.0.0.1") = false := by decide
example : okBracketed false [pystr "BEGIN:VEVENT", pystr "END:VEVENT"] = true := by decide
example : okBracketed false [pystr "END:VEVENT"] = false := by decide

/-- C1: the fold/unfold round-trip `Unfold(Fold(Unfold(x))) = Unfold(x)` fails
on the code: on a logical line of 74 ASCII characters followed by `é`
(76 UTF-8 bytes), `fold` cuts the two-byte code point at byte offset 75 and
`decode(errors="ignore")` drops both of its bytes, so the round-trip loses
the `é`. -/
theorem C1_roundtrip_loses_split_codepoint :
    convert_fr_service.unfold
        (convert_fr_service.fold
          (convert_fr_service.unfold (pystr "SUMMARY:" ++ List.replicate 66 97 ++ [233])) 75) =
      pystr "SUMMARY:" ++ List.replicate 66 97 ∧
    convert_fr_service.unfold
        (convert_fr_service.fold
          (convert_fr_service.unfold (pystr "SUMMARY:" ++ List.replicate 66 97 ++ [233])) 75) ≠
      convert_fr_service.unfold (pystr "SUMMARY:" ++ List.replicate 66 97 ++ [233]) := by
  constructor
  · decide
  · decide

/-- C4: on a logical line of 74 `a` followed by `€`, the 75-byte cut falls on
a continuation byte (mid-code-point); `fold` does not shift the boundary
left but decodes with `errors="ignore"`, so the split code point's bytes are
dropped and concatenating the folded segments (continuation space removed)
does not restore the logical line. -/
theorem C4_fold_cut_mid_codepoint_not_restored :
    (utf8Bytes (List.replicate 74 97 ++ [8364])).get? 75 = some 130 ∧
    isCont 130 = true ∧
    refoldJoin (convert_fr_service.foldLine (List.replicate 74 97 ++ [8364]) 75) =
      List.replicate 74 97 ∧
    refoldJoin (convert_fr_service.foldLine (List.replicate 74 97 ++ [8364]) 75) ≠
      List.replicate 74 97 ++ [8364] := by
  refine ⟨by decide, by decide, by decide, by decide⟩

/-- C3 counterexample: the `UID` property name is matched case-sensitively,
not case-insensitively as the claim states — an event whose UID line is
written `uid:7` falls through to the composite `DS::…::SM::…` key. -/
theorem C3_keyfor_case_counterexample :
    fusion_service.key_for
        (pystr "BEGIN:VEVENT\nuid:7\nDTSTART:20240101\nSUMMARY:x\nEND:VEVENT") =
      pystr "DS::20240101::SM::x" ∧
    fusion_service.key_for
        (pystr "BEGIN:VEVENT\nuid:7\nDTSTART:20240101\nSUMMARY:x\nEND:VEVENT") ≠
      pystr "UID::7" := by
  exact ⟨by decide, by decide⟩

set_option maxRecDepth 40000 in
/-- C5 counterexample: folding a 150-byte ASCII logical line with the default
limit 75 produces a continuation line of 76 UTF-8 bytes (one space plus a
full 75-byte chunk), so not every physical line is at most 75 bytes. -/
theorem C5_fold_76_byte_line_counterexample :
    (splitlines (convert_fr_service.fold (List.replicate 150 97) 75)).map utf8Len =
      [75, 76] ∧
    ¬ (∀ l ∈ splitlines (convert_fr_service.fold (List.replicate 150 97) 75),
        utf8Len l ≤ 75) := by
  exact ⟨by decide, by decide⟩

/-- C6 counterexample: an `END:VEVENT` line with no open block does produce an
event — the emitted block is just `END:VEVENT`, which does not begin with
`BEGIN:VEVENT`. -/
theorem C6_stray_end_counterexample :
    fusion_service.parse_events_lines (pystr "END:VEVENT") = [[pystr "END:VEVENT"]] ∧
    ¬ (∀ e ∈ fusion_service.parse_events_lines (pystr "END:VEVENT"),
        e.head? = some (pystr "BEGIN:VEVENT")) := by
  exact ⟨by decide, by decide⟩

/-- C7 counterexample: the translation applied to `SUMMARY:Reserved` is the
hardcoded mapping of `translate_summary`, which yields
`SUMMARY:Airbnb (Réservation)`, not the dictionary value `SUMMARY:Réservé`
the claim states. -/
theorem C7_translate_counterexample :
    convert_fr_service.translate_ics_summary_only (pystr "SUMMARY:Reserved") =
      pystr "SUMMARY:Airbnb (Réservation)" ∧
    convert_fr_service.translate_ics_summary_only (pystr "SUMMARY:Reserved") ≠
      pystr "SUMMARY:Réservé" := by
  exact ⟨by decide, by decide⟩

/-- C8 counterexample: `unfold` of `convert_fr_service.py` treats only a
leading space as a continuation marker — a line starting with a horizontal
tab is not joined onto the previous logical line. -/
theorem C8_tab_not_joined_counterexample :
    convert_fr_service.unfold (pystr "A:x\n\tb") = pystr "A:x\n\tb" ∧
    convert_fr_service.unfold (pystr "A:x\n\tb") ≠ pystr "A:xb" := by
  exact ⟨by decide, by decide⟩

/-- C9 counterexample: `validate_url` blocks only four literal host strings;
the loopback address `127.0.0.2` (in `127.0.0.0/8`) passes validation. -/
theorem C9_loopback_accepted_counterexample :
    hostOfUrl (pystr "http://127.0.0.2/cal.ics") = some (pystr "127.0.0.2") ∧
    isLoopbackIPv4 (pystr "127.0.0.2") = true ∧
    sync_service.validate_url (pystr "http://127.0.0.2/cal.ics") = true := by
  refine ⟨by decide, by decide, by decide⟩

/-- Helper: splitting at the first `sep` of `k ++ sep :: v` when `k` is
`sep`-free returns `(k, v)`. -/
theorem splitFirst_eq_of_not_mem (sep : Nat) (k v : PyStr) (h : sep ∉ k) :
    splitFirst sep (k ++ sep :: v) = some (k, v) := by
  induction k with
  | nil => simp [splitFirst]
  | cons c k' ih =>
      have hc : c ≠ sep := fun hc => h (hc ▸ List.mem_cons_self c k')
      have h' : sep ∉ k' := fun hm => h (List.mem_cons_of_mem c hm)
      simp [splitFirst, hc, ih h']

/-- C2: merging source A's `UID:1`/`SUMMARY:Reserved` event with source B's
`UID:1`/`SUMMARY:Closed` event yields exactly one event, A's `Reserved`
event; and in general, when the recorded winner for a key has a non-primary
origin and an event of origin `A` with the same key arrives, the merge step
replaces the winner with the origin-`A` event. -/
theorem C2_merge_primary_origin_wins :
    fusion_service.parse_events
        (fusion_service.merge_ics
          (pystr "BEGIN:VEVENT\nUID:1\nSUMMARY:Reserved\nEND:VEVENT\n")
          (pystr "BEGIN:VEVENT\nUID:1\nSUMMARY:Closed\nEND:VEVENT\n")) =
      [pystr "BEGIN:VEVENT\nUID:1\nSUMMARY:Reserved\nEND:VEVENT"] ∧
    ∀ (seen : List fusion_service.SeenEntry) (evt : PyStr) (o e : PyStr),
      fusion_service.lookupSeen seen (fusion_service.key_for evt) = some (o, e) →
      o ≠ pystr "A" →
      fusion_service.lookupSeen
          (fusion_service.mergeStep seen (pystr "A") evt)
          (fusion_service.key_for evt) = some (pystr "A", evt) := by
  constructor
  · decide
  · intro seen evt o e hlook hA
    simp only [fusion_service.mergeStep]
    rw [hlook]
    simp only [ne_eq, hA, not_false_eq_true, and_true, if_true, true_and]
    set k := fusion_service.key_for evt with hk
    unfold fusion_service.lookupSeen at hlook ⊢
    cases hfind : seen.find? (fun x => x.1 = k) with
    | none => rw [hfind] at hlook; simp at hlook
    | some fe =>
        have hfe1 : fe.1 = k := by
          have := List.find?_some hfind
          exact of_decide_eq_true this
        have hpred :
            (fun x : fusion_service.SeenEntry =>
                decide ((if x.1 = k then (k, pystr "A", evt) else x).1 = k)) =
              (fun x : fusion_service.SeenEntry => decide (x.1 = k)) := by
          funext x
          by_cases hx : x.1 = k
          · simp [hx]
          · simp [hx]
        rw [List.find?_map]
        have : (List.find? ((fun x : fusion_service.SeenEntry => decide (x.1 = k)) ∘
            (fun x => if x.1 = k then (k, pystr "A", evt) else x)) seen) =
            List.find? (fun x : fusion_service.SeenEntry => decide (x.1 = k)) seen := by
          refine congrFun (congrArg _ ?_) seen
          funext x
          by_cases hx : x.1 = k
          · simp [Function.comp, hx]
          · simp [Function.comp, hx]
        rw [this, hfind]
        simp [hfe1]

/-- C2 witness: the replacement rule at a concrete `seen` state whose
recorded winner for key `UID::9` is from origin `B`. -/
theorem C2_merge_primary_origin_wins_witness :
    fusion_service.lookupSeen
        (fusion_service.mergeStep
          [(fusion_service.key_for (pystr "BEGIN:VEVENT\nUID:9\nSUMMARY:C\nEND:VEVENT"),
            pystr "B", pystr "BEGIN:VEVENT\nUID:9\nSUMMARY:C\nEND:VEVENT")]
          (pystr "A") (pystr "BEGIN:VEVENT\nUID:9\nSUMMARY:R\nEND:VEVENT"))
        (fusion_service.key_for (pystr "BEGIN:VEVENT\nUID:9\nSUMMARY:R\nEND:VEVENT")) =
      some (pystr "A", pystr "BEGIN:VEVENT\nUID:9\nSUMMARY:R\nEND:VEVENT") :=
  C2_merge_primary_origin_wins.2
    [(fusion_service.key_for (pystr "BEGIN:VEVENT\nUID:9\nSUMMARY:C\nEND:VEVENT"),
      pystr "B", pystr "BEGIN:VEVENT\nUID:9\nSUMMARY:C\nEND:VEVENT")]
    (pystr "BEGIN:VEVENT\nUID:9\nSUMMARY:R\nEND:VEVENT")
    (pystr "B") (pystr "BEGIN:VEVENT\nUID:9\nSUMMARY:C\nEND:VEVENT")
    (by decide) (by decide)

/-- C7 (amended): translation rewrites only SUMMARY lines, substituting only
the value after the first `:` and preserving parameters before it; but the
mapping is the hardcoded one of `translate_summary`, so `SUMMARY:Reserved`
becomes `SUMMARY:Airbnb (Réservation)`, and `DESCRIPTION:Reserved` passes
through unchanged. -/
theorem C7_translate_summary_only_amended :
    convert_fr_service.translate_ics_summary_only (pystr "SUMMARY:Reserved") =
      pystr "SUMMARY:Airbnb (Réservation)" ∧
    convert_fr_service.translate_ics_summary_only (pystr "DESCRIPTION:Reserved") =
      pystr "DESCRIPTION:Reserved" ∧
    (∀ line : PyStr, convert_fr_service.isSummaryLine line = false →
      convert_fr_service.transLine line = line) ∧
    (∀ k v : PyStr, (58 : Nat) ∉ k →
      convert_fr_service.isSummaryLine (k ++ 58 :: v) = true →
      convert_fr_service.transLine (k ++ 58 :: v) =
        k ++ 58 :: convert_fr_service.translate_summary v) := by
  refine ⟨by decide, by decide, ?_, ?_⟩
  · intro line h
    simp [convert_fr_service.transLine, h]
  · intro k v hk hsum
    simp only [convert_fr_service.transLine, hsum, if_true]
    rw [splitFirst_eq_of_not_mem 58 k v hk]

/-- C7 witness: the two conditional parts of the amended claim at concrete
lines — a non-SUMMARY line is untouched, and a SUMMARY line with a language
parameter keeps everything before its first colon. -/
theorem C7_translate_summary_only_amended_witness :
    convert_fr_service.transLine (pystr "DESCRIPTION:Reserved x") =
      pystr "DESCRIPTION:Reserved x" ∧
    convert_fr_service.transLine (pystr "SUMMARY;LANGUAGE=en" ++ 58 :: pystr "Reserved") =
      pystr "SUMMARY;LANGUAGE=en" ++ 58 ::
        convert_fr_service.translate_summary (pystr "Reserved") :=
  ⟨C7_translate_summary_only_amended.2.2.1 (pystr "DESCRIPTION:Reserved x") (by decide),
   C7_translate_summary_only_amended.2.2.2 (pystr "SUMMARY;LANGUAGE=en")
     (pystr "Reserved") (by decide) (by decide)⟩

/-- C9 (amended): `validate_url` rejects every URL whose scheme is not
`http`/`https` and every URL whose hostname is one of the literal strings
`localhost`, `127.0.0.1`, `0.0.0.0`, `::1` (other loopback addresses such
as `127.0.0.2` are not rejected), and `fetch_ical` returns `None` for every
rejected URL without attempting a network request. -/
theorem C9_validate_url_amended :
    (∀ url : PyStr, (sync_service.schemeSplit url).1 ≠ pystr "http" →
      (sync_service.schemeSplit url).1 ≠ pystr "https" →
      sync_service.validate_url url = false) ∧
    (∀ url h : PyStr, hostOfUrl url = some h →
      (h = pystr "localhost" ∨ h = pystr "127.0.0.1" ∨
       h = pystr "0.0.0.0" ∨ h = pystr "::1") →
      sync_service.validate_url url = false) ∧
    (∀ (net : PyStr → Option PyStr) (url : PyStr),
      sync_service.validate_url url = false →
      sync_service.fetch_ical net url = (none, false)) := by
  refine ⟨?_, ?_, ?_⟩
  · intro url h1 h2
    unfold sync_service.validate_url
    rcases hs : sync_service.schemeSplit url with ⟨s, r⟩
    rw [hs] at h1 h2
    simp only at h1 h2
    simp [h1, h2]
  · intro url h hhost hblocked
    unfold sync_service.validate_url
    rcases hs : sync_service.schemeSplit url with ⟨s, r⟩
    have hhost2 : sync_service.hostnameOf (sync_service.netlocOf r) = some h := by
      unfold hostOfUrl at hhost
      rw [hs] at hhost
      exact hhost
    by_cases hsch : s = pystr "http" ∨ s = pystr "https"
    · by_cases hnet : sync_service.netlocOf r = []
      · simp [hsch, hnet]
      · simp [hsch, hnet, hhost2, hblocked]
    · simp [hsch]
  · intro net url h
    unfold sync_service.fetch_ical
    simp [h]

/-- C9 witness: the amended properties at concrete URLs — an `ftp` URL and a
`localhost` URL are rejected, and fetching the rejected `localhost` URL
returns `None` with no request attempted. -/
theorem C9_validate_url_amended_witness :
    sync_service.validate_url (pystr "ftp://example.com/a.ics") = false ∧
    sync_service.validate_url (pystr "http://localhost:8080/a.ics") = false ∧
    sync_service.fetch_ical (fun _ => none) (pystr "http://localhost:8080/a.ics") =
      (none, false) :=
  ⟨C9_validate_url_amended.1 (pystr "ftp://example.com/a.ics") (by decide) (by decide),
   C9_validate_url_amended.2.1 (pystr "http://localhost:8080/a.ics")
     (pystr "localhost") (by decide) (by decide),
   C9_validate_url_amended.2.2 (fun _ => none) (pystr "http://localhost:8080/a.ics")
     (by decide)⟩

/-- Helper: `out[-1] += s` on a list with last element `cur`. -/
theorem modLast_concat (init : List PyStr) (cur s : PyStr) :
    convert_fr_service.modLast (init ++ [cur]) s = init ++ [cur ++ s] := by
  induction init with
  | nil => rfl
  | cons x xs ih =>
      cases xs with
      | nil => rfl
      | cons z zs =>
          simp only [List.cons_append] at ih ⊢
          rw [convert_fr_service.modLast, ih]

/-- Helper: the `unfold` loop of `convert_fr_service.py` with a nonempty
accumulator computes the spec-side logical-line grouping. -/
theorem unfoldGo_eq_specGo (ls : List PyStr) :
    ∀ (init : List PyStr) (cur : PyStr),
      convert_fr_service.unfoldGo (init ++ [cur]) ls = init ++ specUnfoldGo cur ls := by
  induction ls with
  | nil => intro init cur; rfl
  | cons l ls ih =>
      intro init cur
      by_cases hc : l.head? = some 32
      · simp only [convert_fr_service.unfoldGo, specUnfoldGo, hc, if_true]
        have hne : ¬ (init ++ [cur] = ([] : List PyStr)) := by simp
        rw [if_neg hne, modLast_concat, ih]
      · simp only [convert_fr_service.unfoldGo, specUnfoldGo, hc, if_false]
        rw [List.append_cons init cur (specUnfoldGo l ls), ← ih (init ++ [cur]) l,
          List.append_assoc]

/-- Helper: the `unfold` loop started empty equals the spec-side grouping. -/
theorem unfoldGo_eq_spec (ls : List PyStr) :
    convert_fr_service.unfoldGo [] ls = specUnfold ls := by
  induction ls with
  | nil => rfl
  | cons l ls ih =>
      by_cases hc : l.head? = some 32
      · simp only [convert_fr_service.unfoldGo, specUnfold, hc, if_true, if_pos rfl]
        exact ih
      · simp only [convert_fr_service.unfoldGo, specUnfold, hc, if_false]
        simpa using unfoldGo_eq_specGo ls [] l

/-- C8 (amended): the two `unfold` implementations differ from the claim in
complementary ways.  `convert_fr_service.unfold` treats only a single
leading space (not a tab) as the continuation marker, removes exactly that
character, appends the remainder verbatim, and drops marker lines with no
prior logical line — it equals the spec-side grouping `specUnfold` for the
space-only marker.  `utils.unfold` joins both space- and tab-led
continuations but leaves a marker-led very first line in place. -/
theorem C8_unfold_amended :
    (∀ s : PyStr,
      convert_fr_service.unfold s = joinNl (specUnfold (splitlines s))) ∧
    utils.unfold (pystr "A:x\n\tb") = pystr "A:xb" ∧
    utils.unfold (pystr " X\nA:y") = pystr " X\nA:y" := by
  refine ⟨?_, by decide, by decide⟩
  intro s
  unfold convert_fr_service.unfold
  rw [unfoldGo_eq_spec]

/-- Helper: splitting at the first `sep` of `a ++ t` when `a` is `sep`-free
defers to the split of `t`, with `a` prepended to the prefix part. -/
theorem splitFirst_append_left (sep : Nat) (a t : PyStr) (h : sep ∉ a) :
    splitFirst sep (a ++ t) =
      (splitFirst sep t).map (fun pq => (a ++ pq.1, pq.2)) := by
  induction a with
  | nil =>
      simp only [List.nil_append]
      cases splitFirst sep t with
      | none => rfl
      | some pq => rfl
  | cons c a' ih =>
      have hc : c ≠ sep := fun hc => h (hc ▸ List.mem_cons_self c a')
      have h' : sep ∉ a' := fun hm => h (List.mem_cons_of_mem c hm)
      simp only [List.cons_append, splitFirst, hc, if_false]
      rw [show splitFirst sep (a'.append t) =
        Option.map (fun pq => (a' ++ pq.1, pq.2)) (splitFirst sep t) from ih h']
      cases splitFirst sep t with
      | none => rfl
      | some pq => rfl

/-- Helper: when `sep` occurs in `t`, `splitFirst` finds it. -/
theorem splitFirst_isSome_of_mem (sep : Nat) (t : PyStr) (h : sep ∈ t) :
    ∃ p q, splitFirst sep t = some (p, q) := by
  induction t with
  | nil => cases h
  | cons c rest ih =>
      by_cases hc : c = sep
      · exact ⟨[], rest, by simp [splitFirst, hc]⟩
      · have hmem : sep ∈ rest := by
          cases h with
          | head => exact absurd rfl hc
          | tail _ hm => exact hm
        obtain ⟨p, q, hpq⟩ := ih hmem
        exact ⟨c :: p, q, by simp [splitFirst, hc, hpq]⟩

/-- Helper: when every `DTSTART`-prefixed line contains a colon, the
multiline regex search of `key_for` never crosses a line boundary and
equals the spec-side per-line extraction. -/
theorem dtSearch_eq_specDt (lines : List PyStr)
    (h : ∀ l ∈ lines, (pystr "DTSTART").isPrefixOf l = true → (58 : Nat) ∈ l) :
    fusion_service.dtSearch lines = specDtValue lines := by
  induction lines with
  | nil => rfl
  | cons l ls ih =>
      have hrest : ∀ l' ∈ ls, (pystr "DTSTART").isPrefixOf l' = true → (58 : Nat) ∈ l' :=
        fun l' hm => h l' (List.mem_cons_of_mem l hm)
      by_cases hp : (pystr "DTSTART").isPrefixOf l = true
      · have h58 : (58 : Nat) ∈ l := h l (List.mem_cons_self l ls) hp
        obtain ⟨t, ht⟩ : ∃ t, pystr "DTSTART" ++ t = l :=
          (List.isPrefixOf_iff_prefix.mp hp)
        have hnotin : (58 : Nat) ∉ pystr "DTSTART" := by decide
        have h58t : (58 : Nat) ∈ t := by
          rcases List.mem_append.mp (ht ▸ h58) with hin | hin
          · exact absurd hin hnotin
          · exact hin
        obtain ⟨p, q, hpq⟩ := splitFirst_isSome_of_mem 58 t h58t
        have hdrop : l.drop 7 = t := by
          rw [← ht, show (7 : Nat) = (pystr "DTSTART").length from by decide,
            List.drop_left]
        have hsplitl : splitFirst 58 l = some (pystr "DTSTART" ++ p, q) := by
          rw [← ht, splitFirst_append_left 58 _ t hnotin, hpq, Option.map_some']
        simp only [fusion_service.dtSearch, specDtValue, List.findSome?_cons, hp,
          if_true, hdrop, fusion_service.colonScan, hpq, hsplitl]
        by_cases hq : q = ([] : PyStr)
        · simp only [hq]
          simpa [specDtValue] using ih hrest
        · simp [hq]
      · simp only [fusion_service.dtSearch, specDtValue, List.findSome?_cons, hp,
          if_false, Bool.false_eq_true]
        simpa [specDtValue] using ih hrest

/-- Helper: the spec-side first-`UID:`-value search is `key_for`'s
`uidSearch`. -/
theorem firstLineValue_uid_eq (lines : List PyStr) :
    firstLineValue (pystr "UID:") lines = fusion_service.uidSearch lines := by
  unfold firstLineValue fusion_service.uidSearch
  have : (pystr "UID:").length = 4 := by decide
  rw [this]

/-- Helper: the spec-side first-`SUMMARY:`-value search is `key_for`'s
`smSearch`. -/
theorem firstLineValue_summary_eq (lines : List PyStr) :
    firstLineValue (pystr "SUMMARY:") lines = fusion_service.smSearch lines := by
  unfold firstLineValue fusion_service.smSearch
  have : (pystr "SUMMARY:").length = 8 := by decide
  rw [this]

/-- C3 (amended): `key_for` returns `UID::<value>` with the trimmed value of
the first `UID:` line — matched case-sensitively, not case-insensitively —
whenever one with a nonempty value exists, and otherwise the composite
`DS::<dtstart>::SM::<summary>` key from the first `DTSTART` property
(parameters allowed before the colon) and the first `SUMMARY:` property,
with trimmed values and the empty string for missing components; stated for
events whose `DTSTART`-prefixed lines contain a colon (otherwise the regex
`DTSTART[^:]*:` scans across line boundaries). -/
theorem C3_keyfor_amended (evt : PyStr)
    (hdt : ∀ l ∈ splitNl evt,
      (pystr "DTSTART").isPrefixOf l = true → (58 : Nat) ∈ l) :
    fusion_service.key_for evt = specKeyFor evt := by
  simp only [fusion_service.key_for, specKeyFor]
  rw [firstLineValue_uid_eq, firstLineValue_summary_eq, dtSearch_eq_specDt _ hdt]

/-- C3 witness: the amended key computation at a concrete event carrying a
`UID` line with surrounding whitespace. -/
theorem C3_keyfor_amended_witness :
    fusion_service.key_for (pystr "BEGIN:VEVENT\nUID: 42 \nDTSTART;TZID=P:x\nEND:VEVENT") =
      specKeyFor (pystr "BEGIN:VEVENT\nUID: 42 \nDTSTART;TZID=P:x\nEND:VEVENT") :=
  C3_keyfor_amended (pystr "BEGIN:VEVENT\nUID: 42 \nDTSTART;TZID=P:x\nEND:VEVENT")
    (by decide)

/-- Helper: invariant of the `parse_events` loop.  On a suffix whose
`END:VEVENT` lines all occur while a block is open, every emitted event is
well-shaped: it begins with `BEGIN:VEVENT`, ends with `END:VEVENT`, and its
interior lines are non-delimiter input lines. -/
theorem peGo_master (all : List PyStr) (suffix : List PyStr) :
    ∀ (evts : List (List PyStr)) (cur : List PyStr) (inside : Bool),
      okBracketed inside suffix = true →
      (∀ r ∈ suffix, r ∈ all) →
      (inside = true → cur.head? = some (pystr "BEGIN:VEVENT") ∧
        ∀ l ∈ cur.drop 1, interiorOK all l) →
      (∀ e ∈ evts, eventOK all e) →
      ∀ e ∈ fusion_service.peGo evts cur inside suffix, eventOK all e := by
  induction suffix with
  | nil =>
      intro evts cur inside _ _ _ hevts e he
      exact hevts e (by simpa [fusion_service.peGo] using he)
  | cons raw rest ih =>
      intro evts cur inside hok hmem hcur hevts e he
      have hmem2 : ∀ r ∈ rest, r ∈ all := fun r hr => hmem r (List.mem_cons_of_mem raw hr)
      by_cases hB : fusion_service.normLine (rstripCR raw) = pystr "BEGIN:VEVENT"
      · simp only [fusion_service.peGo, hB, if_true, if_pos rfl] at he
        simp only [okBracketed, hB, if_true, if_pos rfl] at hok
        exact ih evts [pystr "BEGIN:VEVENT"] true hok hmem2
          (fun _ => ⟨rfl, fun l hl => absurd hl (List.not_mem_nil l)⟩) hevts e he
      · by_cases hE : fusion_service.normLine (rstripCR raw) = pystr "END:VEVENT"
        · have hne1 : ¬ (pystr "END:VEVENT" = pystr "BEGIN:VEVENT") := by decide
          simp only [okBracketed, hE, eq_false hne1, if_false, eq_self_iff_true,
            if_true] at hok
          rw [Bool.and_eq_true] at hok
          obtain ⟨hhead, hint⟩ := hcur hok.1
          simp only [fusion_service.peGo, hE, eq_false hne1, if_false,
            eq_self_iff_true, if_true] at he
          refine ih _ _ false hok.2 hmem2
            (fun h => absurd h (by simp)) ?_ e he
          intro e2 he2
          rcases List.mem_append.mp he2 with hold | hnew
          · exact hevts e2 hold
          · have heq : e2 = cur ++ [pystr "END:VEVENT"] := List.mem_singleton.mp hnew
            subst heq
            cases cur with
            | nil => exact absurd hhead (by simp)
            | cons c cs =>
                have hc : c = pystr "BEGIN:VEVENT" := by
                  simpa using hhead
                subst hc
                refine ⟨rfl, ?_, ?_⟩
                · exact List.getLast?_concat _
                · intro l hl
                  simp only [List.cons_append, List.drop_succ_cons, List.drop_zero,
                    List.dropLast_concat] at hl
                  exact hint l (by simpa using hl)
        · by_cases hi : inside = true
          · subst hi
            obtain ⟨hhead, hint⟩ := hcur rfl
            simp only [fusion_service.peGo, hB, hE, if_false, if_true, if_pos rfl] at he
            simp only [okBracketed, hB, hE, if_false] at hok
            refine ih evts (cur ++ [rstripCR raw]) true hok hmem2 ?_ hevts e he
            intro _
            cases cur with
            | nil => exact absurd hhead (by simp)
            | cons c cs =>
                have hc : c = pystr "BEGIN:VEVENT" := by simpa using hhead
                subst hc
                refine ⟨rfl, ?_⟩
                intro l hl
                simp only [List.cons_append, List.drop_succ_cons, List.drop_zero] at hl
                rcases List.mem_append.mp hl with hin | hne
                · exact hint l (by simpa using hin)
                · have : l = rstripCR raw := List.mem_singleton.mp hne
                  subst this
                  exact ⟨List.mem_map_of_mem rstripCR (hmem raw (List.mem_cons_self raw rest)),
                    hB, hE⟩
          · have hi2 : inside = false := by
              cases inside
              · rfl
              · exact absurd rfl hi
            subst hi2
            simp only [fusion_service.peGo, hB, hE, if_false] at he
            simp only [okBracketed, hB, hE, if_false] at hok
            exact ih evts cur false hok hmem2 hcur hevts e he

/-- Helper: a suffix containing no `END:VEVENT` line emits no event. -/
theorem peGo_no_end (suffix : List PyStr) :
    ∀ (evts : List (List PyStr)) (cur : List PyStr) (inside : Bool),
      (∀ r ∈ suffix, fusion_service.normLine (rstripCR r) ≠ pystr "END:VEVENT") →
      fusion_service.peGo evts cur inside suffix = evts := by
  induction suffix with
  | nil => intro evts cur inside _; rfl
  | cons raw rest ih =>
      intro evts cur inside h
      have hEr : fusion_service.normLine (rstripCR raw) ≠ pystr "END:VEVENT" :=
        h raw (List.mem_cons_self raw rest)
      have h2 : ∀ r ∈ rest,
          fusion_service.normLine (rstripCR r) ≠ pystr "END:VEVENT" :=
        fun r hr => h r (List.mem_cons_of_mem raw hr)
      by_cases hB : fusion_service.normLine (rstripCR raw) = pystr "BEGIN:VEVENT"
      · have hne2 : ¬ (pystr "BEGIN:VEVENT" = pystr "END:VEVENT") := by decide
        simp only [fusion_service.peGo, hB, eq_self_iff_true, if_true]
        exact ih evts [pystr "BEGIN:VEVENT"] true h2
      · simp only [fusion_service.peGo, hB, hEr, if_false]
        cases inside
        · simpa using ih evts cur false h2
        · simpa using ih evts (cur ++ [rstripCR raw]) true h2

/-- Helper: appending an `END:VEVENT`-free suffix (such as an unterminated
`BEGIN:VEVENT` block at end of stream) leaves the emitted events unchanged. -/
theorem peGo_drops_unterminated (lines : List PyStr) :
    ∀ (suffix : List PyStr) (evts : List (List PyStr)) (cur : List PyStr)
      (inside : Bool),
      (∀ r ∈ suffix, fusion_service.normLine (rstripCR r) ≠ pystr "END:VEVENT") →
      fusion_service.peGo evts cur inside (lines ++ suffix) =
        fusion_service.peGo evts cur inside lines := by
  induction lines with
  | nil =>
      intro suffix evts cur inside h
      simpa [fusion_service.peGo] using peGo_no_end suffix evts cur inside h
  | cons raw rest ih =>
      intro suffix evts cur inside h
      by_cases hB : fusion_service.normLine (rstripCR raw) = pystr "BEGIN:VEVENT"
      · simp only [List.cons_append, fusion_service.peGo, hB, eq_self_iff_true,
          if_true]
        exact ih suffix evts [pystr "BEGIN:VEVENT"] true h
      · by_cases hE : fusion_service.normLine (rstripCR raw) = pystr "END:VEVENT"
        · have hne1 : ¬ (pystr "END:VEVENT" = pystr "BEGIN:VEVENT") := by decide
          simp only [List.cons_append, fusion_service.peGo, hE, eq_false hne1,
            if_false, eq_self_iff_true, if_true]
          exact ih suffix _ _ false h
        · simp only [List.cons_append, fusion_service.peGo, hB, hE, if_false]
          cases inside
          · simpa using ih suffix evts cur false h
          · simpa using ih suffix evts (cur ++ [rstripCR raw]) true h

/-- C6 (amended): on inputs whose `END:VEVENT` lines all occur while a VEVENT
block is open, every emitted event's line sequence begins with
`BEGIN:VEVENT` and ends with `END:VEVENT`, and a `BEGIN:VEVENT` left
unterminated at end of stream is silently discarded; a stray `END:VEVENT`
with no open block, however, emits a spurious event rather than being
ignored. -/
theorem C6_parse_events_amended :
    (∀ ics : PyStr, okBracketed false (splitlines ics) = true →
      ∀ e ∈ fusion_service.parse_events_lines ics,
        e.head? = some (pystr "BEGIN:VEVENT") ∧
        e.getLast? = some (pystr "END:VEVENT")) ∧
    (∀ (lines suffix : List PyStr),
      (∀ r ∈ suffix, fusion_service.normLine (rstripCR r) ≠ pystr "END:VEVENT") →
      fusion_service.peGo [] [] false (lines ++ suffix) =
        fusion_service.peGo [] [] false lines) := by
  constructor
  · intro ics hok e he
    have hres := peGo_master (splitlines ics) (splitlines ics) [] [] false hok
      (fun _ hr => hr) (fun h => absurd h Bool.false_ne_true)
      (fun e2 he2 => absurd he2 (List.not_mem_nil e2)) e he
    exact ⟨hres.1, hres.2.1⟩
  · intro lines suffix h
    exact peGo_drops_unterminated lines suffix [] [] false h

/-- C6 witness: the amended properties at concrete inputs — a well-bracketed
document's single event is well-shaped, and an unterminated trailing
`BEGIN:VEVENT` block adds no event. -/
theorem C6_parse_events_amended_witness :
    ([pystr "BEGIN:VEVENT", pystr "SUMMARY:a", pystr "END:VEVENT"] :
        List PyStr).head? = some (pystr "BEGIN:VEVENT") ∧
    ([pystr "BEGIN:VEVENT", pystr "SUMMARY:a", pystr "END:VEVENT"] :
        List PyStr).getLast? = some (pystr "END:VEVENT") ∧
    fusion_service.peGo [] [] false
        ([pystr "A:1"] ++ [pystr "BEGIN:VEVENT", pystr "SUMMARY:x"]) =
      fusion_service.peGo [] [] false [pystr "A:1"] :=
  ⟨(C6_parse_events_amended.1 (pystr "BEGIN:VEVENT\nSUMMARY:a\nEND:VEVENT")
      (by decide)
      [pystr "BEGIN:VEVENT", pystr "SUMMARY:a", pystr "END:VEVENT"] (by decide)).1,
   (C6_parse_events_amended.1 (pystr "BEGIN:VEVENT\nSUMMARY:a\nEND:VEVENT")
      (by decide)
      [pystr "BEGIN:VEVENT", pystr "SUMMARY:a", pystr "END:VEVENT"] (by decide)).2,
   C6_parse_events_amended.2 [pystr "A:1"]
     [pystr "BEGIN:VEVENT", pystr "SUMMARY:x"] (by decide)⟩

/-- C10: when each `END:VEVENT` line is preceded by a matching
`BEGIN:VEVENT`, every emitted event has the exact uppercase `BEGIN:VEVENT`
as its first line and `END:VEVENT` as its last, even when the input
delimiters differ in case or carry surrounding whitespace, and interior
lines are kept in their original case with only trailing carriage returns
stripped. -/
theorem C10_parse_events_exact_delimiters :
    fusion_service.parse_events_lines
        (pystr "begin:vevent\r\nSuMmArY:MiXeD\n  END:VEVENT  ") =
      [[pystr "BEGIN:VEVENT", pystr "SuMmArY:MiXeD", pystr "END:VEVENT"]] ∧
    ∀ ics : PyStr, okBracketed false (splitlines ics) = true →
      ∀ e ∈ fusion_service.parse_events_lines ics, eventOK (splitlines ics) e := by
  constructor
  · decide
  · intro ics hok e he
    exact peGo_master (splitlines ics) (splitlines ics) [] [] false hok
      (fun _ hr => hr) (fun h => absurd h Bool.false_ne_true)
      (fun e2 he2 => absurd he2 (List.not_mem_nil e2)) e he

/-- C10 witness: the general shape property at a concrete mixed-case input. -/
theorem C10_parse_events_exact_delimiters_witness :
    eventOK (splitlines (pystr "x\nBegin:Vevent\nD:1\nEnd:Vevent\ny"))
      [pystr "BEGIN:VEVENT", pystr "D:1", pystr "END:VEVENT"] :=
  C10_parse_events_exact_delimiters.2
    (pystr "x\nBegin:Vevent\nD:1\nEnd:Vevent\ny") (by decide)
    [pystr "BEGIN:VEVENT", pystr "D:1", pystr "END:VEVENT"] (by decide)

/-- Helper: code points below `0x800` encode in at most two bytes. -/
theorem encodeChar_len2 (c : Nat) (h : c < 2048) : (encodeChar c).length ≤ 2 := by
  unfold encodeChar
  split_ifs
  all_goals first | simp | (exact absurd h (by omega))

/-- Helper: code points below `0x10000` encode in at most three bytes. -/
theorem encodeChar_len3 (c : Nat) (h : c < 65536) : (encodeChar c).length ≤ 3 := by
  unfold encodeChar
  split_ifs
  all_goals first | simp | (exact absurd h (by omega))

/-- Helper: every code point encodes in at most four bytes. -/
theorem encodeChar_len4 (c : Nat) : (encodeChar c).length ≤ 4 := by
  unfold encodeChar
  split_ifs <;> simp

/-- Helper: a continuation byte is at most `0xBF`. -/
theorem isCont_le (c : Nat) (h : isCont c = true) : c ≤ 191 := by
  simp only [isCont, decide_eq_true_eq] at h
  omega

/-- Helper: a valid second byte of a three-byte sequence is at most `0xBF`. -/
theorem cont3ok_le (b c : Nat) (h : cont3ok b c = true) : c ≤ 191 := by
  unfold cont3ok at h
  split_ifs at h <;> simp only [isCont, decide_eq_true_eq] at h <;> omega

/-- Helper: on nonempty input one decoder step consumes at least one and at
most all remaining bytes, and any code point it emits re-encodes in at most
as many bytes as were consumed. -/
theorem utf8Step_spec (b : Nat) (rest : List Nat) :
    1 ≤ (utf8Step (b :: rest)).2 ∧
    (utf8Step (b :: rest)).2 ≤ (b :: rest).length ∧
    (match (utf8Step (b :: rest)).1 with
     | none => 0
     | some c => (encodeChar c).length) ≤ (utf8Step (b :: rest)).2 := by
  simp only [utf8Step]
  by_cases h1 : b < 128
  · simp only [h1, if_true]
    exact ⟨by simp, by simp <;> omega, by simp [encodeChar, h1]⟩
  · simp only [h1, if_false]
    by_cases h2 : 194 ≤ b ∧ b ≤ 223
    · simp only [h2, and_self, if_true]
      cases rest with
      | nil => exact ⟨by simp, by simp <;> omega, by simp⟩
      | cons c1 r2 =>
          by_cases hc1 : isCont c1 = true
          · simp only [hc1, if_true]
            have hb1 : c1 ≤ 191 := isCont_le c1 hc1
            have hcp : (b - 192) * 64 + (c1 - 128) < 2048 := by omega
            exact ⟨by simp, by simp <;> omega,
              by simpa using encodeChar_len2 _ hcp⟩
          · simp only [hc1, if_false]
            exact ⟨by simp, by simp <;> omega, by simp⟩
    · simp only [h2, if_false]
      by_cases h3 : 224 ≤ b ∧ b ≤ 239
      · simp only [h3, and_self, if_true]
        cases rest with
        | nil => exact ⟨by simp, by simp <;> omega, by simp⟩
        | cons c1 r2 =>
            by_cases hok3 : cont3ok b c1 = true
            · simp only [hok3, if_true]
              cases r2 with
              | nil =>
                  exact ⟨by simp, by simp <;> omega, by simp⟩
              | cons c2 r3 =>
                  by_cases hc2 : isCont c2 = true
                  · simp only [hc2, if_true]
                    have hb1 : c1 ≤ 191 := cont3ok_le b c1 hok3
                    have hb2 : c2 ≤ 191 := isCont_le c2 hc2
                    have hcp :
                        (b - 224) * 4096 + (c1 - 128) * 64 + (c2 - 128) < 65536 := by
                      omega
                    exact ⟨by simp, by simp <;> omega,
                      by simpa using encodeChar_len3 _ hcp⟩
                  · simp only [hc2, if_false]
                    exact ⟨by simp, by simp <;> omega, by simp⟩
            · simp only [hok3, if_false]
              exact ⟨by simp, by simp <;> omega, by simp⟩
      · simp only [h3, if_false]
        by_cases h4 : 240 ≤ b ∧ b ≤ 244
        · simp only [h4, and_self, if_true]
          cases rest with
          | nil => exact ⟨by simp, by simp <;> omega, by simp⟩
          | cons c1 r2 =>
              by_cases hok4 : cont4ok b c1 = true
              · simp only [hok4, if_true]
                cases r2 with
                | nil =>
                    exact ⟨by simp, by simp <;> omega, by simp⟩
                | cons c2 r3 =>
                    by_cases hc2 : isCont c2 = true
                    · simp only [hc2, if_true]
                      cases r3 with
                      | nil =>
                          exact ⟨by simp, by simp <;> omega,
                            by simp⟩
                      | cons c3 r4 =>
                          by_cases hc3 : isCont c3 = true
                          · simp only [hc3, if_true]
                            exact ⟨by simp, by simp <;> omega,
                              by simpa using encodeChar_len4 _⟩
                          · simp only [hc3, if_false]
                            exact ⟨by simp, by simp <;> omega,
                              by simp⟩
                    · simp only [hc2, if_false]
                      exact ⟨by simp, by simp <;> omega,
                        by simp⟩
              · simp only [hok4, if_false]
                exact ⟨by simp, by simp <;> omega, by simp⟩
        · simp only [h4, if_false]
          exact ⟨by simp, by simp <;> omega, by simp⟩

/-- Helper: UTF-8 byte length is additive under concatenation. -/
theorem utf8Len_append (x y : PyStr) :
    utf8Len (x ++ y) = utf8Len x + utf8Len y := by
  simp [utf8Len, utf8Bytes]

/-- Helper: UTF-8 byte length of a string starting with one code point. -/
theorem utf8Len_cons (c : Nat) (s : PyStr) :
    utf8Len (c :: s) = (encodeChar c).length + utf8Len s := by
  simp [utf8Len, utf8Bytes]

/-- Helper: decoding with `errors="ignore"` never grows the byte length —
the decoded text re-encodes in at most as many bytes as were consumed. -/
theorem decodeIgnoreAux_len (fuel : Nat) :
    ∀ bs : List Nat, utf8Len (decodeIgnoreAux fuel bs) ≤ bs.length := by
  induction fuel with
  | zero => intro bs; simp [decodeIgnoreAux, utf8Len, utf8Bytes]
  | succ fuel ih =>
      intro bs
      cases bs with
      | nil => simp [decodeIgnoreAux, utf8Len, utf8Bytes]
      | cons b rest =>
          obtain ⟨h1, h2, h3⟩ := utf8Step_spec b rest
          have htail := ih ((b :: rest).drop (utf8Step (b :: rest)).2)
          rw [show decodeIgnoreAux (fuel + 1) (b :: rest) =
            (match (utf8Step (b :: rest)).1 with
             | some c => [c]
             | none => []) ++
              decodeIgnoreAux fuel ((b :: rest).drop (utf8Step (b :: rest)).2)
            from rfl]
          rw [utf8Len_append]
          have hemit : utf8Len (match (utf8Step (b :: rest)).1 with
              | some c => [c]
              | none => []) =
              (match (utf8Step (b :: rest)).1 with
               | none => 0
               | some c => (encodeChar c).length) := by
            cases (utf8Step (b :: rest)).1 with
            | none => simp [utf8Len, utf8Bytes]
            | some c => simp [utf8Len, utf8Bytes]
          rw [hemit]
          have hdl : ((b :: rest).drop (utf8Step (b :: rest)).2).length =
              (b :: rest).length - (utf8Step (b :: rest)).2 :=
            List.length_drop _ _
          omega

/-- Helper: every chunk produced by `fold`'s slicing loop has at most
`limit` bytes. -/
theorem chunksGo_forall_length (limit : Nat) :
    ∀ (fuel : Nat) (raw : List Nat),
      ∀ c ∈ convert_fr_service.chunksGo fuel raw limit, c.length ≤ limit := by
  intro fuel
  induction fuel with
  | zero => intro raw c hc; simp [convert_fr_service.chunksGo] at hc
  | succ fuel ih =>
      intro raw c hc
      cases raw with
      | nil => simp [convert_fr_service.chunksGo] at hc
      | cons b rest =>
          simp only [convert_fr_service.chunksGo] at hc
          rcases List.mem_cons.mp hc with rfl | hin
          · exact List.length_take_le limit (b :: rest)
          · exact ih _ c hin

/-- C5 (amended): every physical line produced by `fold` with the default
limit 75 is at most 76 UTF-8 bytes long: the first segment of a folded
logical line is at most 75 bytes, but each continuation line carries one
leading space on top of a full 75-byte chunk and so may reach 76 bytes. -/
theorem C5_fold_byte_bound_amended (ics : PyStr) :
    ∀ l ∈ convert_fr_service.foldLines ics 75, utf8Len l ≤ 76 := by
  intro l hl
  obtain ⟨line, hline, hfl⟩ := List.mem_flatMap.mp hl
  simp only [convert_fr_service.foldLine] at hfl
  by_cases hle : (utf8Bytes line).length ≤ 75
  · rw [if_pos hle] at hfl
    have heq : l = line := by simpa using hfl
    subst heq
    have hlen : utf8Len l ≤ 75 := hle
    omega
  · rw [if_neg hle] at hfl
    have hcl := chunksGo_forall_length 75 (utf8Bytes line).length (utf8Bytes line)
    cases hch : convert_fr_service.chunksGo (utf8Bytes line).length
        (utf8Bytes line) 75 with
    | nil => rw [hch] at hfl; simp at hfl
    | cons c cs =>
        rw [hch] at hfl
        rw [hch] at hcl
        rcases List.mem_cons.mp hfl with rfl | hin
        · have hd : utf8Len (decodeIgnore c) ≤ c.length := by
            simpa [decodeIgnore] using decodeIgnoreAux_len c.length c
          have hc75 : c.length ≤ 75 := hcl c (List.mem_cons_self c cs)
          omega
        · obtain ⟨ck, hck, rfl⟩ := List.mem_map.mp hin
          have hd : utf8Len (decodeIgnore ck) ≤ ck.length := by
            simpa [decodeIgnore] using decodeIgnoreAux_len ck.length ck
          have hck75 : ck.length ≤ 75 := hcl ck (List.mem_cons_of_mem c hck)
          have h32 : utf8Len (32 :: decodeIgnore ck) =
              (encodeChar 32).length + utf8Len (decodeIgnore ck) := utf8Len_cons _ _
          have he32 : (encodeChar 32).length = 1 := by decide
          omega

/-- C5 witness: the byte bound at a concrete short document. -/
theorem C5_fold_byte_bound_amended_witness : utf8Len (pystr "UID:1") ≤ 76 :=
  C5_fold_byte_bound_amended (pystr "UID:1") (pystr "UID:1") (by decide)
